import Mathlib

/-
Verification of the SerialICE QEMU bridge (src/serialice/serialice.c and
src/serialice/serialice-com.c): a shallow embedding of the serial command
codec, the prompt-synchronised link layer, and the access-multiplexing
layer, together with theorems about the properties the specification
states for them.

Machine integers are modelled as Nat with explicit `% 2^w` truncation at
the points where the C code's fixed-width types truncate values.
-/

namespace SerialICE

/-! ## Fixed-width truncation helpers

These model the implicit conversions of the C integer types:
storing a value into a `uint8_t`/`uint16_t`/`uint32_t`/`uint64_t`
keeps only the low bits. -/

def u8 (n : Nat) : Nat := n % 2 ^ 8

def u16 (n : Nat) : Nat := n % 2 ^ 16

def u32 (n : Nat) : Nat := n % 2 ^ 32

def u64 (n : Nat) : Nat := n % 2 ^ 64

/-- serialice.c line 167: `#define mask_data(val,bytes) (val & (((uint64_t)1<<(bytes*8))-1))`,
i.e. keep the low `8*bytes` bits (every call site has `bytes*8 < 64`). -/
def mask_data (val bytes : Nat) : Nat := val % 2 ^ (bytes * 8)

/-! ## Lowercase fixed-width hexadecimal (sprintf `%0Nx` / strtoul base 16)

`toHexString w v` models `sprintf("%0Wx", v)` for a value whose C type
guarantees `v < 16^w`: `w` lowercase zero-padded hex digits, most
significant first.  `strtoul16` models `strtoul(s, NULL, 16)` on the
reply buffers: accumulate hex digits until the first non-digit byte or
the end of the buffer (the buffers parsed here never begin with
whitespace, a sign, or a `0x` prefix, and never overflow an
`unsigned long`, so those parts of strtoul are not reachable). -/

def hexDigitChar (n : Nat) : Char :=
  if n < 10 then Char.ofNat (48 + n) else Char.ofNat (87 + n)

def toHexString : Nat → Nat → List Char
  | 0, _ => []
  | w + 1, v => hexDigitChar (v / 16 ^ w % 16) :: toHexString w v

def hexDigitVal? (c : Char) : Option Nat :=
  if '0' ≤ c ∧ c ≤ '9' then some (c.toNat - 48)
  else if 'a' ≤ c ∧ c ≤ 'f' then some (c.toNat - 87)
  else if 'A' ≤ c ∧ c ≤ 'F' then some (c.toNat - 55)
  else none

def strtoul16_go (acc : Nat) : List Char → Nat
  | [] => acc
  | c :: cs =>
    match hexDigitVal? c with
    | some d => strtoul16_go (acc * 16 + d) cs
    | none => acc

def strtoul16 (s : List Char) : Nat := strtoul16_go 0 s

/-! ## Link layer, byte-stream semantics (serialice-com.c)

In this model `stream` is the sequence of bytes the target delivers over
the link before the link fails; reads that reach past the end of the
stream correspond to the situations where the C code would block or spin
(see the syscall-level model further below for the error path itself).

`serialice_wait_prompt` (lines 151-174): reads 3 bytes, then slides a
3-byte window one byte at a time until the window is `'\n' '>' ' '`.
`serialice_wait_prompt_pure stream` returns the total number of bytes
consumed when the loop terminates, `none` when the stream ends first. -/

def prompt_bytes : List Char := ['\n', '>', ' ']

def wait_prompt_loop_pure : List Char → Char → Char → Char → Option Nat
  | rest, b0, b1, b2 =>
    if b0 = '\n' ∧ b1 = '>' ∧ b2 = ' ' then some 0
    else
      match rest with
      | [] => none
      | c :: cs => (wait_prompt_loop_pure cs b1 b2 c).map (· + 1)

def serialice_wait_prompt_pure (stream : List Char) : Option Nat :=
  match stream with
  | b0 :: b1 :: b2 :: rest => (wait_prompt_loop_pure rest b0 b1 b2).map (· + 3)
  | _ => none

/-- serialice_command (serialice-com.c lines 281-317): wait for a prompt,
write the command (serialice_write, lines 122-149, consumes one echoed
byte per command byte), read `reply_len` bytes, compensate for a stray
leading CR by shifting and reading one extra byte, and treat any byte
count other than `reply_len` as fatal (exit(1) printing the partial
buffer).  The dead `l == -1` check is unreachable (serialice_read
returns the non-negative accumulated count, see the syscall model). -/
inductive CmdResult where
  | blocked
  | fatal (got expected : Nat) (buffer : List Char)
  | ok (buffer rest : List Char)
deriving DecidableEq

def serialice_command (command : List Char) (replyLen : Nat)
    (stream : List Char) : CmdResult :=
  match serialice_wait_prompt_pure stream with
  | none => .blocked
  | some n =>
    let afterPrompt := stream.drop n
    if command.length ≤ afterPrompt.length then
      let rest := afterPrompt.drop command.length
      let l := min replyLen rest.length
      let buffer := rest.take replyLen
      if buffer.head? = some '\r' then
        let buffer := buffer.drop 1 ++ (rest.drop replyLen).take 1
        if l = replyLen then .ok buffer (rest.drop (replyLen + 1))
        else .fatal l replyLen buffer
      else
        if l = replyLen then .ok buffer (rest.drop replyLen)
        else .fatal l replyLen buffer
    else .blocked

/-! ## Command Codec (serialice-com.c lines 352-424)

`msg_io_read` and `msg_load` build the ASCII command, run one
prompt-wait → write → fixed-length-read exchange, and parse the reply
with `strtoul(buffer + 1, NULL, 16)` behind the width-matching cast.
For an unsupported size they print a warning and return a sentinel
(`-1` as `uint64_t` for io reads, `0` for loads) without touching the
link.  The outcome records the parsed value and the command that was
written, so that wire activity is observable. -/

inductive MsgResult where
  | ok (value : Nat) (cmd : List Char)
  | fatal
  | blocked
  | unsupported (value : Nat)
deriving DecidableEq

/-- `sprintf(s->command, "*ri%04x.b", port)` and its `.w`/`.l` variants
(the `uint16_t` parameter guarantees `port < 2^16`, so `%04x` prints
exactly 4 digits). -/
def str_ri (port : Nat) (suffix : Char) : List Char :=
  '*' :: 'r' :: 'i' :: (toHexString 4 port ++ ['.', suffix])

/-- `sprintf(s->command, "*rm%08x.b", addr)` and its variants
(`uint32_t` addr gives exactly 8 digits). -/
def str_rm (addr : Nat) (suffix : Char) : List Char :=
  '*' :: 'r' :: 'm' :: (toHexString 8 addr ++ ['.', suffix])

/-- One codec exchange: run `serialice_command` and parse the successful
reply buffer with `parse`, recording the command written. -/
def run_read_command (cmd : List Char) (replyLen : Nat)
    (parse : List Char → Nat) (stream : List Char) : MsgResult :=
  match serialice_command cmd replyLen stream with
  | .ok buffer _ => .ok (parse buffer) cmd
  | .fatal _ _ _ => .fatal
  | .blocked => .blocked

/-- msg_io_read (serialice-com.c lines 352-374). -/
def msg_io_read (port size : Nat) (stream : List Char) : MsgResult :=
  if size = 1 then
    run_read_command (str_ri port 'b') 3 (fun buf => u8 (strtoul16 (buf.drop 1))) stream
  else if size = 2 then
    run_read_command (str_ri port 'w') 5 (fun buf => u16 (strtoul16 (buf.drop 1))) stream
  else if size = 4 then
    run_read_command (str_ri port 'l') 9 (fun buf => strtoul16 (buf.drop 1)) stream
  else
    .unsupported (2 ^ 64 - 1)

/-- msg_load (serialice-com.c lines 397-424). -/
def msg_load (addr size : Nat) (stream : List Char) : MsgResult :=
  if size = 1 then
    run_read_command (str_rm addr 'b') 3 (fun buf => u8 (strtoul16 (buf.drop 1))) stream
  else if size = 2 then
    run_read_command (str_rm addr 'w') 5 (fun buf => u16 (strtoul16 (buf.drop 1))) stream
  else if size = 4 then
    run_read_command (str_rm addr 'l') 9 (fun buf => u32 (strtoul16 (buf.drop 1))) stream
  else if size = 8 then
    run_read_command (str_rm addr 'q') 17 (fun buf => u64 (strtoul16 (buf.drop 1))) stream
  else
    .unsupported 0

/-- Modelled from the spec (and the reply-shape comments at
serialice-com.c lines 357, 363, 368, 403, 409, 414, 418): the target
shell answers a read command for width `w` with a leading newline
followed by `2*w` lowercase zero-padded hex digits of the value. -/
def reply_for (w v : Nat) : List Char :=
  '\n' :: toHexString (2 * w) v

/-! ## Link layer, syscall-level model (serialice-com.c lines 88-174)

`src i` is the result of the i-th call to the underlying `read(2)`:
interrupted (`EINTR`, transparently retried), a hard error (`-1` with
another errno), or a chunk of at most the requested number of bytes
(a timeout under `VMIN = 0 / VTIME` delivers the empty chunk).

serialice_read (lines 88-120) accumulates chunks into `bytes_read`
until `bytes_read >= nbyte`; `continue` on EINTR, `break` on a hard
error.  Its return value is the accumulated non-negative count: the
function has no path that returns -1.  `fuel` bounds the number of
loop iterations so the model stays total; `none` marks the executions
in which the C loop would still be running (e.g. spinning on
timeouts). -/

inductive ReadRes where
  | eintr
  | err
  | chunk (data : List Char)

def serialice_read_sys (src : Nat → ReadRes) :
    Nat → Nat → Nat → List Char → Option (Int × List Char × Nat)
  | 0, _, _, _ => none
  | fuel + 1, idx, nbyte, acc =>
    match src idx with
    | .eintr => serialice_read_sys src fuel (idx + 1) nbyte acc
    | .err => some ((acc.length : Int), acc, idx + 1)
    | .chunk d =>
      let acc2 := acc ++ d.take (nbyte - acc.length)
      if nbyte ≤ acc2.length then some ((acc2.length : Int), acc2, idx + 1)
      else serialice_read_sys src fuel (idx + 1) nbyte acc2

/-- serialice_wait_prompt at the syscall level (lines 151-174): the
3-byte window `b0 b1 b2` starts as whatever the uninitialised stack
buffer held, a failed initial read leaves part of it in place, and each
loop iteration shifts the window and reads one byte into its last slot
(a read that delivers nothing leaves the shifted byte in place).  The
outcome is `ok` (prompt seen), `fatalExit` (the C `exit(1)` under
`l == -1`), or `spin` (the loop is still running when `lf`/`rf` fuel
runs out). -/
inductive WPOutcome where
  | ok
  | fatalExit
  | spin
deriving DecidableEq

def wait_prompt_loop_sys (src : Nat → ReadRes) (rf : Nat) :
    Nat → Nat → Char → Char → Char → WPOutcome
  | 0, _, _, _, _ => .spin
  | lf + 1, idx, b0, b1, b2 =>
    if b0 = '\n' ∧ b1 = '>' ∧ b2 = ' ' then .ok
    else
      match serialice_read_sys src rf idx 1 [] with
      | none => .spin
      | some (l, data, idx2) =>
        if l = -1 then .fatalExit
        else wait_prompt_loop_sys src rf lf idx2 b1 b2 (data.getD 0 b2)

def serialice_wait_prompt_sys (src : Nat → ReadRes) (rf lf : Nat)
    (g0 g1 g2 : Char) : WPOutcome :=
  match serialice_read_sys src rf 0 3 [] with
  | none => .spin
  | some (l, data, idx) =>
    if l = -1 then .fatalExit
    else wait_prompt_loop_sys src rf lf idx (data.getD 0 g0) (data.getD 1 g1) (data.getD 2 g2)

/-- A link whose every read fails with a hard error. -/
def all_err_src : Nat → ReadRes := fun _ => .err

/-! ## Access Mux (serialice.c lines 71-196)

The Filter and the emulated-CPU primitives (`cpu_rdmsr`, `cpu_cpuid`,
`cpu_io_read_wrapper`, …) are external collaborators, passed in as
functions.  Write-kind operations return the list of backend write
invocations they perform, in program order, so that what is written
where is observable. -/

/-- Modelled from the spec: the RoutingDecision is a "bitmask over
{read/write-from-target, read/write-from-emulation}" (the flag
constants `READ_FROM_QEMU`/`READ_FROM_SERIALICE` and
`WRITE_TO_QEMU`/`WRITE_TO_SERIALICE` live in serialice.h, which is not
part of src/).  `qemu` is the emulation bit, `serialice` the target
bit; `mux & FLAG` becomes a field test. -/
structure RoutingDecision where
  qemu : Bool
  serialice : Bool
deriving DecidableEq

structure cpuid_regs_t where
  eax : Nat
  ebx : Nat
  ecx : Nat
  edx : Nat
deriving DecidableEq

/-- The Filter's pre/post hooks per access kind (serialice.h interface,
as called from serialice.c).  Hooks that receive data by pointer are
modelled as returning the rewritten value; the post hooks that carry no
data (`io_write_post`, `store_post`, `wrmsr_post`) have no effect on
any value computed here and are omitted. -/
structure SerialICE_filter where
  io_read_pre : Nat → Nat → RoutingDecision
  io_read_post : Nat → Nat
  io_write_pre : Nat → Nat → Nat → RoutingDecision × Nat
  load_pre : Nat → Nat → RoutingDecision
  load_post : Nat → Nat
  store_pre : Nat → Nat → Nat → RoutingDecision × Nat
  rdmsr_pre : Nat → RoutingDecision
  rdmsr_post : Nat → Nat → Nat × Nat
  wrmsr_pre : Nat → Nat → Nat → RoutingDecision × Nat × Nat
  cpuid_pre : Nat → Nat → RoutingDecision
  cpuid_post : cpuid_regs_t → cpuid_regs_t

/-- serialice_rdmsr (serialice.c lines 71-92): target first
(READ_FROM_SERIALICE), then emulation (READ_FROM_QEMU) overwrites both
halves; `rdmsr_post` may rewrite `hi`/`lo`; the result is
`hi << 32 | lo`. -/
def serialice_rdmsr (f : SerialICE_filter) (cpu_rdmsr : Nat → Nat)
    (target_rdmsr : Nat → Nat → Nat × Nat) (addr key : Nat) : Nat :=
  let mux := f.rdmsr_pre addr
  let hl0 : Nat × Nat := (0, 0)
  let hl1 := if mux.serialice then
      (u32 (target_rdmsr addr key).1, u32 (target_rdmsr addr key).2)
    else hl0
  let hl2 := if mux.qemu then
      (u64 (cpu_rdmsr addr) >>> 32, u64 (cpu_rdmsr addr) &&& 0xffffffff)
    else hl1
  let hl3 := f.rdmsr_post hl2.1 hl2.2
  u32 hl3.1 <<< 32 ||| u32 hl3.2

inductive WrmsrEvent where
  | toSerialice (addr key hi lo : Nat)
  | toQemu (addr data : Nat)
deriving DecidableEq

/-- serialice_wrmsr (serialice.c lines 94-108): split data into hi/lo,
`wrmsr_pre` may rewrite both, then write to the target and/or the
emulation in that order. -/
def serialice_wrmsr (f : SerialICE_filter) (data addr key : Nat) : List WrmsrEvent :=
  let hi0 := u64 data >>> 32
  let lo0 := u64 data &&& 0xffffffff
  let pre := f.wrmsr_pre addr hi0 lo0
  let mux := pre.1
  let hi := u32 pre.2.1
  let lo := u32 pre.2.2
  (if mux.serialice then [.toSerialice addr key hi lo] else []) ++
  (if mux.qemu then [.toQemu addr (lo ||| hi <<< 32)] else [])

/-- serialice_cpuid (serialice.c lines 110-124): registers start at 0,
target first, emulation overwrites, `cpuid_post` runs unconditionally. -/
def serialice_cpuid (f : SerialICE_filter)
    (cpu_cpuid target_cpuid : Nat → Nat → cpuid_regs_t) (eax ecx : Nat) : cpuid_regs_t :=
  let mux := f.cpuid_pre eax ecx
  let ret0 : cpuid_regs_t := ⟨0, 0, 0, 0⟩
  let ret1 := if mux.serialice then target_cpuid eax ecx else ret0
  let ret2 := if mux.qemu then cpu_cpuid eax ecx else ret1
  f.cpuid_post ret2

/-- serialice_handle_load (serialice.c lines 134-145): the target is the
only source that assigns `*data`; `load_post` runs only when
READ_FROM_QEMU is not selected; the Bool is the "handled locally"
return value `!(mux & READ_FROM_QEMU)`. -/
def serialice_handle_load (f : SerialICE_filter) (target_load : Nat → Nat → Nat)
    (addr size data : Nat) : Nat × Bool :=
  let mux := f.load_pre addr size
  let d1 := if mux.serialice then u64 (target_load addr size) else u64 data
  let d2 := if !mux.qemu then u64 (f.load_post d1) else d1
  (d2, !mux.qemu)

inductive StoreEvent where
  | toSerialice (addr size data : Nat)
deriving DecidableEq

/-- serialice_handle_store (serialice.c lines 156-165): `store_pre` may
rewrite the data; the target store (if selected) receives the rewritten
value; the Bool is `!(mux & WRITE_TO_QEMU)`. -/
def serialice_handle_store (f : SerialICE_filter) (addr size data : Nat) :
    List StoreEvent × Bool :=
  let pre := f.store_pre addr size (u64 data)
  let mux := pre.1
  let d1 := u64 pre.2
  ((if mux.serialice then [.toSerialice addr size d1] else []), !mux.qemu)

/-- serialice_io_read (serialice.c lines 169-182): emulation first
(READ_FROM_QEMU), then the target (READ_FROM_SERIALICE) overwrites;
the merged value is masked to the requested width and handed to
`io_read_post`, whose output is returned without re-masking. -/
def serialice_io_read (f : SerialICE_filter)
    (cpu_io_read target_io_read : Nat → Nat → Nat) (port size : Nat) : Nat :=
  let mux := f.io_read_pre port size
  let d0 : Nat := 0
  let d1 := if mux.qemu then u64 (cpu_io_read port size) else d0
  let d2 := if mux.serialice then u64 (target_io_read port size) else d1
  let d3 := mask_data d2 size
  u64 (f.io_read_post d3)

inductive IoWriteEvent where
  | toQemu (port size data : Nat)
  | toSerialice (port size data : Nat)
deriving DecidableEq

def ioWriteEventData : IoWriteEvent → Nat
  | .toQemu _ _ d => d
  | .toSerialice _ _ d => d

/-- serialice_io_write (serialice.c lines 184-196): the data is masked
to the requested width, `io_write_pre` may rewrite it, it is re-masked,
and the re-masked value is written to the emulation and/or the target
in that order. -/
def serialice_io_write (f : SerialICE_filter) (port size data : Nat) :
    List IoWriteEvent :=
  let d0 := mask_data (u64 data) size
  let pre := f.io_write_pre d0 port size
  let mux := pre.1
  let d1 := mask_data (u64 pre.2) size
  (if mux.qemu then [.toQemu port size d1] else []) ++
  (if mux.serialice then [.toSerialice port size d1] else [])

/-! Helper routing masks and filters for concrete instantiations. -/

def routing_both : RoutingDecision := ⟨true, true⟩

def routing_target_only : RoutingDecision := ⟨false, true⟩

def routing_qemu_only : RoutingDecision := ⟨true, false⟩

/-- A policy that returns the same routing decision for every access
and leaves all data unchanged (the spec's "always route" default). -/
def const_filter (d : RoutingDecision) : SerialICE_filter where
  io_read_pre := fun _ _ => d
  io_read_post := fun x => x
  io_write_pre := fun data _ _ => (d, data)
  load_pre := fun _ _ => d
  load_post := fun x => x
  store_pre := fun _ _ data => (d, data)
  rdmsr_pre := fun _ => d
  rdmsr_post := fun hi lo => (hi, lo)
  wrmsr_pre := fun _ hi lo => (d, hi, lo)
  cpuid_pre := fun _ _ => d
  cpuid_post := fun r => r

/-- A routing-both policy whose io-read post hook sets bits above every
io width (256 needs 9 bits). -/
def c4_filter : SerialICE_filter :=
  { const_filter routing_both with io_read_post := fun _ => 256 }

/-- A route-to-emulation policy whose load post hook would rewrite any
value to 42 if it ran. -/
def c9_filter : SerialICE_filter :=
  { const_filter routing_qemu_only with load_post := fun _ => 42 }

/-- A routing-both policy whose write pre hooks rewrite the data they
receive by reference. -/
def c10_filter : SerialICE_filter :=
  { const_filter routing_both with
    io_write_pre := fun data _ _ => (routing_both, data + 1)
    store_pre := fun _ _ data => (routing_both, data + 1)
    wrmsr_pre := fun _ hi lo => (routing_both, hi + 1, lo + 1) }

/-! ## Supporting lemmas -/

theorem toHexString_length (w : Nat) : ∀ v, (toHexString w v).length = w := by
  induction w with
  | zero => intro v; rfl
  | succ w ih => intro v; simp [toHexString, ih]

theorem hexDigitVal?_hexDigitChar : ∀ d, d < 16 → hexDigitVal? (hexDigitChar d) = some d := by
  decide

theorem mod_mul_decompose (v a b : Nat) :
    v % (a * b) = a * (v / a % b) + v % a := by
  conv_lhs => rw [← Nat.div_add_mod (v % (a * b)) a]
  rw [Nat.mod_mul_right_div_self, Nat.mod_mod_of_dvd v (dvd_mul_right a b)]

theorem strtoul16_go_toHexString (w : Nat) :
    ∀ acc v, strtoul16_go acc (toHexString w v) = acc * 16 ^ w + v % 16 ^ w := by
  induction w with
  | zero =>
    intro acc v
    simp [toHexString, strtoul16_go, Nat.mod_one]
  | succ w ih =>
    intro acc v
    have hd : v / 16 ^ w % 16 < 16 := Nat.mod_lt _ (by norm_num)
    simp only [toHexString, strtoul16_go, hexDigitVal?_hexDigitChar _ hd]
    rw [ih, pow_succ, mod_mul_decompose v (16 ^ w) 16]
    ring

theorem strtoul16_toHexString (w v : Nat) :
    strtoul16 (toHexString w v) = v % 16 ^ w := by
  simp [strtoul16, strtoul16_go_toHexString]

theorem wait_prompt_loop_pure_spec (rest : List Char) :
    ∀ (b0 b1 b2 : Char) (k : Nat),
      wait_prompt_loop_pure rest b0 b1 b2 = some k ↔
        (k ≤ rest.length ∧
         (((b0 :: b1 :: b2 :: rest).drop k).take 3 = prompt_bytes) ∧
         ∀ j, j < k → ((b0 :: b1 :: b2 :: rest).drop j).take 3 ≠ prompt_bytes) := by
  induction rest with
  | nil =>
    intro b0 b1 b2 k
    by_cases hC : b0 = '\n' ∧ b1 = '>' ∧ b2 = ' '
    · rw [wait_prompt_loop_pure, if_pos hC]
      constructor
      · rintro h
        obtain rfl : k = 0 := by simpa using h.symm
        refine ⟨Nat.le_refl _, ?_, by omega⟩
        simp [prompt_bytes, hC.1, hC.2.1, hC.2.2]
      · rintro ⟨hk, _, _⟩
        simp at hk
        simp [hk]
    · rw [wait_prompt_loop_pure, if_neg hC]
      constructor
      · rintro h; exact absurd h (by simp)
      · rintro ⟨hk, hw, _⟩
        simp at hk
        subst hk
        simp [prompt_bytes] at hw
        exact absurd hw hC
  | cons c cs ih =>
    intro b0 b1 b2 k
    by_cases hC : b0 = '\n' ∧ b1 = '>' ∧ b2 = ' '
    · rw [wait_prompt_loop_pure, if_pos hC]
      constructor
      · rintro h
        obtain rfl : k = 0 := by simpa using h.symm
        refine ⟨Nat.zero_le _, ?_, by omega⟩
        simp [prompt_bytes, hC.1, hC.2.1, hC.2.2]
      · rintro ⟨hk, hw, hj⟩
        rcases Nat.eq_zero_or_pos k with rfl | hpos
        · rfl
        · exact absurd (by simp [prompt_bytes, hC.1, hC.2.1, hC.2.2]) (hj 0 hpos)
    · rw [wait_prompt_loop_pure, if_neg hC]
      have hw0 : ((b0 :: b1 :: b2 :: c :: cs).drop 0).take 3 ≠ prompt_bytes := by
        simp only [List.drop_zero, List.take_succ_cons, List.take_zero, prompt_bytes]
        intro h
        simp at h
        exact hC ⟨h.1, h.2.1, h.2.2⟩
      constructor
      · intro h
        rw [Option.map_eq_some'] at h
        obtain ⟨k', hk', rfl⟩ := h
        obtain ⟨hlen, hwin, hjs⟩ := (ih b1 b2 c k').mp hk'
        refine ⟨by simpa using Nat.succ_le_succ hlen, by simpa using hwin, ?_⟩
        intro j hj
        match j with
        | 0 => exact hw0
        | j' + 1 =>
          have := hjs j' (by omega)
          simpa using this
      · rintro ⟨hk, hw, hj⟩
        match k with
        | 0 => exact absurd hw hw0
        | k' + 1 =>
          rw [Option.map_eq_some']
          refine ⟨k', ?_, rfl⟩
          refine (ih b1 b2 c k').mpr ⟨by simpa using hk, by simpa using hw, ?_⟩
          intro j' hj'
          have := hj (j' + 1) (by omega)
          simpa using this

theorem serialice_wait_prompt_pure_spec (stream : List Char) (n : Nat) :
    serialice_wait_prompt_pure stream = some n ↔
      (3 ≤ n ∧ n ≤ stream.length ∧
       (stream.drop (n - 3)).take 3 = prompt_bytes ∧
       ∀ m, m < n → 3 ≤ m → (stream.drop (m - 3)).take 3 ≠ prompt_bytes) := by
  match stream with
  | [] => simp [serialice_wait_prompt_pure]; omega
  | [b0] => simp [serialice_wait_prompt_pure]; omega
  | [b0, b1] => simp [serialice_wait_prompt_pure]; omega
  | b0 :: b1 :: b2 :: rest =>
    rw [serialice_wait_prompt_pure]
    constructor
    · intro h
      rw [Option.map_eq_some'] at h
      obtain ⟨k, hk, rfl⟩ := h
      obtain ⟨hlen, hwin, hjs⟩ := (wait_prompt_loop_pure_spec rest b0 b1 b2 k).mp hk
      refine ⟨by omega, by simp; omega, by simpa using hwin, ?_⟩
      intro m hm h3
      obtain ⟨j, rfl⟩ : ∃ j, m = j + 3 := ⟨m - 3, by omega⟩
      simpa using hjs j (by omega)
    · rintro ⟨h3, hlen, hwin, hm⟩
      obtain ⟨k, rfl⟩ : ∃ k, n = k + 3 := ⟨n - 3, by omega⟩
      rw [Option.map_eq_some']
      refine ⟨k, ?_, rfl⟩
      refine (wait_prompt_loop_pure_spec rest b0 b1 b2 k).mpr
        ⟨by simp at hlen; omega, by simpa using hwin, ?_⟩
      intro j hj
      simpa using hm (j + 3) (by omega) (by omega)

/-- The exact-exchange lemma: with a stream that carries a prompt, the
per-byte echo of the command, and a reply of exactly the expected
length whose first byte is not CR, `serialice_command` succeeds and
hands back exactly that reply buffer. -/
theorem serialice_command_exact (cmd echo reply : List Char) (replyLen : Nat)
    (he : echo.length = cmd.length) (hr : reply.length = replyLen)
    (hcr : reply.head? ≠ some '\r') :
    serialice_command cmd replyLen (prompt_bytes ++ echo ++ reply) = .ok reply [] := by
  have hwp : serialice_wait_prompt_pure (prompt_bytes ++ echo ++ reply) = some 3 := by
    rw [serialice_wait_prompt_pure_spec]
    refine ⟨by omega, ?_, ?_, ?_⟩
    · simp only [prompt_bytes, List.length_append, List.length_cons, List.length_nil]
      omega
    · simp [prompt_bytes]
    · intro m h1 h2; omega
  have hdrop : (prompt_bytes ++ echo ++ reply).drop 3 = echo ++ reply := by
    simp [prompt_bytes]
  have hcond : cmd.length ≤ (echo ++ reply).length := by
    simp only [List.length_append]; omega
  have hdrop2 : (echo ++ reply).drop cmd.length = reply := by
    rw [← he]; exact List.drop_left echo reply
  have htake : reply.take replyLen = reply := by
    rw [← hr]; exact List.take_length reply
  have hdropr : reply.drop replyLen = [] := by
    rw [← hr]; exact List.drop_length reply
  have hmin : min replyLen reply.length = replyLen := by omega
  simp only [serialice_command, hwp, hdrop, hdrop2, hcond, htake, hdropr, hmin, hcr,
    if_true, if_false, ite_true, ite_false, eq_self_iff_true]

/-- The short-reply lemma: if, after the prompt and the command echo,
the link delivers fewer bytes than the protocol-fixed reply length, the
exchange is fatal (never a success carrying a padded buffer). -/
theorem serialice_command_short (cmd : List Char) (replyLen n : Nat) (stream : List Char)
    (hp : serialice_wait_prompt_pure stream = some n)
    (he : cmd.length ≤ stream.length - n)
    (hs : stream.length - n - cmd.length < replyLen) :
    (∃ buf, serialice_command cmd replyLen stream
        = .fatal (stream.length - n - cmd.length) replyLen buf)
    ∧ ∀ buf rest, serialice_command cmd replyLen stream ≠ .ok buf rest := by
  have hcond : cmd.length ≤ (stream.drop n).length := by
    simp only [List.length_drop]; omega
  have havail : ((stream.drop n).drop cmd.length).length = stream.length - n - cmd.length := by
    simp only [List.length_drop]
  have hmin : min replyLen ((stream.drop n).drop cmd.length).length
      = stream.length - n - cmd.length := by
    rw [havail]; omega
  have hne : ¬ (stream.length - n - cmd.length = replyLen) := by omega
  by_cases hcr : (((stream.drop n).drop cmd.length).take replyLen).head? = some '\r'
  · constructor
    · simp only [serialice_command, hp, hcond, hcr, hmin, hne, if_true, if_false,
        ite_true, ite_false]
      exact ⟨_, rfl⟩
    · intro buf rest hok
      simp only [serialice_command, hp, hcond, hcr, hmin, hne, if_true, if_false,
        ite_true, ite_false] at hok
      exact CmdResult.noConfusion hok
  · constructor
    · simp only [serialice_command, hp, hcond, hcr, hmin, hne, if_true, if_false,
        ite_true, ite_false]
      exact ⟨_, rfl⟩
    · intro buf rest hok
      simp only [serialice_command, hp, hcond, hcr, hmin, hne, if_true, if_false,
        ite_true, ite_false] at hok
      exact CmdResult.noConfusion hok

theorem reply_for_length (w v : Nat) : (reply_for w v).length = 1 + 2 * w := by
  simp [reply_for, toHexString_length]; omega

/-- A well-formed single exchange for a read command parses the reply
digits back. -/
theorem run_read_command_reply (cmd : List Char) (replyLen w v : Nat)
    (hw : replyLen = 1 + 2 * w) (parse : List Char → Nat) :
    run_read_command cmd replyLen parse (prompt_bytes ++ cmd ++ reply_for w v)
      = .ok (parse (reply_for w v)) cmd := by
  subst hw
  rw [run_read_command,
    serialice_command_exact cmd cmd (reply_for w v) (1 + 2 * w) rfl (reply_for_length w v)
      (by simp [reply_for])]

theorem serialice_read_sys_nonneg (src : Nat → ReadRes) :
    ∀ fuel idx nbyte acc r d i,
      serialice_read_sys src fuel idx nbyte acc = some (r, d, i) → 0 ≤ r := by
  intro fuel
  induction fuel with
  | zero => intro idx nbyte acc r d i h; exact absurd h (by simp [serialice_read_sys])
  | succ fuel ih =>
    intro idx nbyte acc r d i h
    rw [serialice_read_sys] at h
    match hsrc : src idx with
    | .eintr => rw [hsrc] at h; exact ih _ _ _ _ _ _ h
    | .err =>
      rw [hsrc] at h
      obtain ⟨rfl, -, -⟩ : ((acc.length : Int) = r ∧ acc = d ∧ idx + 1 = i) := by
        simpa using h
      exact Int.natCast_nonneg _
    | .chunk c =>
      rw [hsrc] at h
      simp only at h
      split at h
      · obtain ⟨rfl, -, -⟩ :
            (((acc ++ c.take (nbyte - acc.length)).length : Int) = r ∧ _ ∧ _) := by
          simpa using h
        exact Int.natCast_nonneg _
      · exact ih _ _ _ _ _ _ h

theorem serialice_read_sys_all_err (rf idx nbyte : Nat) :
    serialice_read_sys all_err_src (rf + 1) idx nbyte []
      = some (0, [], idx + 1) := by
  rw [serialice_read_sys]
  rfl

theorem wait_prompt_loop_sys_all_err (rf : Nat) :
    ∀ lf idx, wait_prompt_loop_sys all_err_src rf lf idx 'x' 'x' 'x' = .spin := by
  intro lf
  induction lf with
  | zero => intro idx; rfl
  | succ lf ih =>
    intro idx
    rw [wait_prompt_loop_sys]
    rw [if_neg (by decide)]
    match rf with
    | 0 => rfl
    | rf + 1 =>
      rw [serialice_read_sys_all_err]
      simp only [List.getD]
      rw [if_neg (by decide)]
      exact ih (idx + 1)

theorem decode_reply_digits (w v : Nat) :
    strtoul16 ((reply_for w v).drop 1) = v % 16 ^ (2 * w) := by
  simp [reply_for, strtoul16_toHexString]

/-! ## The claims -/

/-- Claim C2: for every supported width w (io: {1,2,4}; memory:
{1,2,4,8}) and every value v, encoding a read command, forming the
protocol-fixed reply for value v (leading newline followed by 2w
lowercase zero-padded hex digits), and decoding that reply yields
exactly v mod 2^(8w). -/
theorem c2_read_reply_roundtrip (port addr v : Nat) :
    msg_io_read port 1 (prompt_bytes ++ str_ri port 'b' ++ reply_for 1 v)
      = .ok (v % 2 ^ 8) (str_ri port 'b')
  ∧ msg_io_read port 2 (prompt_bytes ++ str_ri port 'w' ++ reply_for 2 v)
      = .ok (v % 2 ^ 16) (str_ri port 'w')
  ∧ msg_io_read port 4 (prompt_bytes ++ str_ri port 'l' ++ reply_for 4 v)
      = .ok (v % 2 ^ 32) (str_ri port 'l')
  ∧ msg_load addr 1 (prompt_bytes ++ str_rm addr 'b' ++ reply_for 1 v)
      = .ok (v % 2 ^ 8) (str_rm addr 'b')
  ∧ msg_load addr 2 (prompt_bytes ++ str_rm addr 'w' ++ reply_for 2 v)
      = .ok (v % 2 ^ 16) (str_rm addr 'w')
  ∧ msg_load addr 4 (prompt_bytes ++ str_rm addr 'l' ++ reply_for 4 v)
      = .ok (v % 2 ^ 32) (str_rm addr 'l')
  ∧ msg_load addr 8 (prompt_bytes ++ str_rm addr 'q' ++ reply_for 8 v)
      = .ok (v % 2 ^ 64) (str_rm addr 'q') := by
  refine ⟨?_, ?_, ?_, ?_, ?_, ?_, ?_⟩
  · rw [msg_io_read, if_pos rfl, run_read_command_reply _ 3 1 v (by norm_num)]
    rw [decode_reply_digits]
    congr 1
    simp only [u8]
    norm_num
  · rw [msg_io_read, if_neg (by norm_num), if_pos rfl,
      run_read_command_reply _ 5 2 v (by norm_num)]
    rw [decode_reply_digits]
    congr 1
    simp only [u16]
    norm_num
  · rw [msg_io_read, if_neg (by norm_num), if_neg (by norm_num), if_pos rfl,
      run_read_command_reply _ 9 4 v (by norm_num)]
    rw [decode_reply_digits]
    congr 1
  · rw [msg_load, if_pos rfl, run_read_command_reply _ 3 1 v (by norm_num)]
    rw [decode_reply_digits]
    congr 1
    simp only [u8]
    norm_num
  · rw [msg_load, if_neg (by norm_num), if_pos rfl,
      run_read_command_reply _ 5 2 v (by norm_num)]
    rw [decode_reply_digits]
    congr 1
    simp only [u16]
    norm_num
  · rw [msg_load, if_neg (by norm_num), if_neg (by norm_num), if_pos rfl,
      run_read_command_reply _ 9 4 v (by norm_num)]
    rw [decode_reply_digits]
    congr 1
    simp only [u32]
    norm_num
  · rw [msg_load, if_neg (by norm_num), if_neg (by norm_num), if_neg (by norm_num),
      if_pos rfl, run_read_command_reply _ 17 8 v (by norm_num)]
    rw [decode_reply_digits]
    congr 1
    simp only [u64]
    norm_num

/-- Claim C3: for every command exchange, if the number of reply bytes
actually read differs from the reply length fixed for that access and
width (in particular any shorter reply), the program treats it as a
fatal desynchronization: it logs the partial reply and terminates, and
the short reply is never silently zero-padded into a result. -/
theorem c3_short_reply_fatal (cmd : List Char) (replyLen n : Nat) (stream : List Char)
    (hp : serialice_wait_prompt_pure stream = some n)
    (he : cmd.length ≤ stream.length - n)
    (hs : stream.length - n - cmd.length < replyLen) :
    (∃ buf, serialice_command cmd replyLen stream
        = .fatal (stream.length - n - cmd.length) replyLen buf)
    ∧ ∀ buf rest, serialice_command cmd replyLen stream ≠ .ok buf rest :=
  serialice_command_short cmd replyLen n stream hp he hs

/-- Witness for C3: a concrete byte-load exchange answered with 1 of the
expected 3 reply bytes is fatal. -/
theorem c3_short_reply_fatal_witness :
    (∃ buf, serialice_command ['a', 'b'] 3 ['\n', '>', ' ', 'a', 'b', 'X']
        = .fatal 1 3 buf)
    ∧ ∀ buf rest,
        serialice_command ['a', 'b'] 3 ['\n', '>', ' ', 'a', 'b', 'X'] ≠ .ok buf rest := by
  have h := c3_short_reply_fatal ['a', 'b'] 3 3 ['\n', '>', ' ', 'a', 'b', 'X']
    (by decide) (by decide) (by decide)
  simpa using h

/-- Claim C6: for every input byte stream, wait_prompt returns exactly
when the last three bytes consumed so far are newline, greater-than,
space in that order, and never returns before the first occurrence of
that three-byte suffix in the consumed stream. -/
theorem c6_wait_prompt_exact (stream : List Char) (n : Nat) :
    serialice_wait_prompt_pure stream = some n ↔
      (3 ≤ n ∧ n ≤ stream.length ∧
       (stream.drop (n - 3)).take 3 = ['\n', '>', ' '] ∧
       ∀ m, m < n → 3 ≤ m → (stream.drop (m - 3)).take 3 ≠ ['\n', '>', ' ']) :=
  serialice_wait_prompt_pure_spec stream n

/-- Witness for C6: on the concrete stream "a\n> " the prompt loop stops
after exactly 4 consumed bytes. -/
theorem c6_wait_prompt_exact_witness :
    serialice_wait_prompt_pure ['a', '\n', '>', ' '] = some 4 :=
  (c6_wait_prompt_exact ['a', '\n', '>', ' '] 4).mpr (by decide)

/-- Claim C7 (refuted, code bug): the claim states that a hard read
error is signalled by the read primitive to its callers, which
terminate the process.  In the code, serialice_read's return value is
the accumulated byte count, which is never -1 (second conjunct), so the
callers' `l == -1` checks can never fire; on a link whose reads all
fail with a hard error, serialice_wait_prompt spins forever instead of
exiting: for every loop-fuel and read-fuel bound it is still running
(first conjunct, with the uninitialised window holding 'x' bytes). -/
theorem c7_hard_read_error_behavior :
    (∀ rf lf, serialice_wait_prompt_sys all_err_src rf lf 'x' 'x' 'x' = .spin)
    ∧ (∀ (src : Nat → ReadRes) fuel idx nbyte acc r d i,
        serialice_read_sys src fuel idx nbyte acc = some (r, d, i) → 0 ≤ r) := by
  constructor
  · intro rf lf
    match rf with
    | 0 => rfl
    | rf + 1 =>
      rw [serialice_wait_prompt_sys, serialice_read_sys_all_err]
      simp only [List.getD]
      rw [if_neg (by decide)]
      exact wait_prompt_loop_sys_all_err (rf + 1) lf 1
  · exact fun src fuel => serialice_read_sys_nonneg src fuel

/-- Witness for C7: the all-error link at concrete fuel bounds, and the
non-negative return value of a concrete failed read. -/
theorem c7_hard_read_error_behavior_witness :
    serialice_wait_prompt_sys all_err_src 5 5 'x' 'x' 'x' = .spin ∧ (0 : Int) ≤ 0 :=
  ⟨c7_hard_read_error_behavior.1 5 5,
   c7_hard_read_error_behavior.2 all_err_src 1 0 3 [] 0 [] 1 (by decide)⟩

/-- Claim C8: for every io_read and load invocation with an unsupported
size (io: not in {1,2,4}; memory: not in {1,2,4,8}), the operation logs
a local warning, returns a sentinel result (-1 as uint64_t for io
reads, 0 for loads), and sends nothing on the wire: the outcome is the
same for every stream, with no prompt-wait, no command bytes and no
reply read. -/
theorem c8_unsupported_size_local (port addr size : Nat)
    (h1 : size ≠ 1) (h2 : size ≠ 2) (h4 : size ≠ 4) :
    (∀ stream, msg_io_read port size stream = .unsupported (2 ^ 64 - 1))
    ∧ (size ≠ 8 → ∀ stream, msg_load addr size stream = .unsupported 0) := by
  constructor
  · intro stream
    rw [msg_io_read, if_neg h1, if_neg h2, if_neg h4]
  · intro h8 stream
    rw [msg_load, if_neg h1, if_neg h2, if_neg h4, if_neg h8]

/-- Witness for C8: size 3 is unsupported for both access kinds, on
concrete streams. -/
theorem c8_unsupported_size_local_witness :
    msg_io_read 0 3 ['\n', '>', ' '] = .unsupported (2 ^ 64 - 1)
    ∧ msg_load 0 3 [] = .unsupported 0 :=
  ⟨(c8_unsupported_size_local 0 0 3 (by decide) (by decide) (by decide)).1 ['\n', '>', ' '],
   (c8_unsupported_size_local 0 0 3 (by decide) (by decide) (by decide)).2 (by decide) []⟩

/-- Claim C1 (refuted for io_read): the claim states that every
read-kind access applies the target first and then overwrites with the
emulation value, so with both routing bits set the emulation value
wins.  For serialice_io_read the order is the opposite: with both bits
set, the emulation backend returns 5, the target backend returns 7, and
the mux returns the target's 7, not the emulation's 5. -/
theorem c1_io_read_both_counterexample :
    serialice_io_read (const_filter routing_both) (fun _ _ => 5) (fun _ _ => 7) 0 1 = 7
    ∧ (7 : Nat) ≠ 5 := by
  decide

/-- Claim C1 (amended): with both routing bits set, the later-applied
source wins: for rdmsr and cpuid the target is applied first and the
emulation value overwrites it (the result is independent of the target
backend); for io_read the order is reversed, emulation first and target
second (the result is independent of the emulation backend); for load
the target is the only source that assigns the mux result. -/
theorem c1_later_source_wins_amended (f : SerialICE_filter)
    (addr key eax ecx port size d0 : Nat) :
    (f.rdmsr_pre addr = routing_both →
      ∀ cq ct ct', serialice_rdmsr f cq ct addr key = serialice_rdmsr f cq ct' addr key)
  ∧ (f.cpuid_pre eax ecx = routing_both →
      ∀ cq ct ct', serialice_cpuid f cq ct eax ecx = serialice_cpuid f cq ct' eax ecx)
  ∧ (f.io_read_pre port size = routing_both →
      ∀ cq cq' ct, serialice_io_read f cq ct port size = serialice_io_read f cq' ct port size)
  ∧ (f.load_pre addr size = routing_both →
      ∀ ct, serialice_handle_load f ct addr size d0 = (u64 (ct addr size), false)) := by
  refine ⟨?_, ?_, ?_, ?_⟩
  · intro h cq ct ct'
    simp [serialice_rdmsr, h, routing_both]
  · intro h cq ct ct'
    simp [serialice_cpuid, h, routing_both]
  · intro h cq cq' ct
    simp [serialice_io_read, h, routing_both]
  · intro h ct
    simp [serialice_handle_load, h, routing_both]

/-- Witness for C1 (amended): concrete backends under the
routing-both policy. -/
theorem c1_later_source_wins_amended_witness :
    serialice_rdmsr (const_filter routing_both) (fun _ => 9) (fun _ _ => (1, 2)) 0 0
      = serialice_rdmsr (const_filter routing_both) (fun _ => 9) (fun _ _ => (3, 4)) 0 0
    ∧ serialice_io_read (const_filter routing_both) (fun _ _ => 5) (fun _ _ => 7) 1 1
      = serialice_io_read (const_filter routing_both) (fun _ _ => 6) (fun _ _ => 7) 1 1 :=
  ⟨(c1_later_source_wins_amended (const_filter routing_both) 0 0 0 0 1 1 0).1 rfl
      (fun _ => 9) (fun _ _ => (1, 2)) (fun _ _ => (3, 4)),
   (c1_later_source_wins_amended (const_filter routing_both) 0 0 0 0 1 1 0).2.2.1 rfl
      (fun _ _ => 5) (fun _ _ => 6) (fun _ _ => 7)⟩

/-- Claim C4 (refuted for io_read): the claim states that io_read data
is masked to the requested width both before and after the filter's
post hook, so the returned value never has bits above the width even if
the post hook set them.  With a post hook returning 256 and width 1,
the mux returns 256, which does not fit in 8 bits. -/
theorem c4_io_read_post_unmasked_counterexample :
    serialice_io_read c4_filter (fun _ _ => 0) (fun _ _ => 0) 0 1 = 256
    ∧ ¬ (256 < 2 ^ (1 * 8)) := by
  decide

/-- Claim C4 (amended): for io_write the data is masked to the
requested byte width both before the pre hook (the outcome depends on
the caller's data only through its masked low bits) and after it (every
value written to a backend equals its own masking); for io_read the
merged backend value is masked before the post hook runs (with an
identity post hook the returned value equals its own masking), but the
post hook's output is returned without re-masking. -/
theorem c4_masking_amended (f : SerialICE_filter) (port size d : Nat) :
    (∀ e ∈ serialice_io_write f port size d,
        ioWriteEventData e = mask_data (ioWriteEventData e) size)
  ∧ serialice_io_write f port size d
      = serialice_io_write f port size (mask_data (u64 d) size)
  ∧ (∀ cq ct, f.io_read_post = (fun x => x) →
      serialice_io_read f cq ct port size
        = mask_data (serialice_io_read f cq ct port size) size) := by
  have hidem : ∀ x, mask_data (mask_data x size) size = mask_data x size := fun x =>
    Nat.mod_mod_of_dvd _ dvd_rfl
  have hu64 : ∀ y, u64 (mask_data (u64 y) size) = mask_data (u64 y) size := fun y =>
    Nat.mod_eq_of_lt (lt_of_le_of_lt (Nat.mod_le _ _) (Nat.mod_lt y (by norm_num)))
  have hgen : ∀ x, x < 2 ^ 64 →
      u64 (mask_data x size) = mask_data (u64 (mask_data x size)) size := by
    intro x hx
    have h1 : mask_data x size < 2 ^ 64 := lt_of_le_of_lt (Nat.mod_le _ _) hx
    have h2 : u64 (mask_data x size) = mask_data x size := Nat.mod_eq_of_lt h1
    rw [h2, hidem]
  refine ⟨?_, ?_, ?_⟩
  · intro e he
    rw [serialice_io_write] at he
    rcases List.mem_append.mp he with h | h
    · split at h
      · rw [List.mem_singleton] at h
        subst h
        simp [ioWriteEventData, hidem]
      · exact absurd h (List.not_mem_nil e)
    · split at h
      · rw [List.mem_singleton] at h
        subst h
        simp [ioWriteEventData, hidem]
      · exact absurd h (List.not_mem_nil e)
  · have h0 : mask_data (u64 (mask_data (u64 d) size)) size = mask_data (u64 d) size := by
      rw [hu64, hidem]
    rw [serialice_io_write, serialice_io_write, h0]
  · intro cq ct hpost
    rw [serialice_io_read, hpost]
    simp only []
    apply hgen
    split
    · exact Nat.mod_lt _ (by norm_num)
    · split
      · exact Nat.mod_lt _ (by norm_num)
      · norm_num

/-- Witness for C4 (amended): pre-hook masking and merged-value masking
at a concrete width-1 access with data 300 (above 8 bits). -/
theorem c4_masking_amended_witness :
    serialice_io_write (const_filter routing_both) 0 1 300
      = serialice_io_write (const_filter routing_both) 0 1 (mask_data (u64 300) 1)
    ∧ serialice_io_read (const_filter routing_both) (fun _ _ => 0) (fun _ _ => 300) 0 1
      = mask_data
          (serialice_io_read (const_filter routing_both) (fun _ _ => 0) (fun _ _ => 300) 0 1) 1 :=
  ⟨(c4_masking_amended (const_filter routing_both) 0 1 300).2.1,
   (c4_masking_amended (const_filter routing_both) 0 1 300).2.2
      (fun _ _ => 0) (fun _ _ => 300) rfl⟩

/-- Claim C5: for every read-kind access, if Filter.pre returns a mask
selecting only the target, the emulated-CPU backend is never invoked
and the result is independent of it; if the mask selects only
emulation, the target (Command Codec) backend is never invoked and the
result is independent of it.  (serialice_handle_load never invokes the
emulation backend itself, so only its target-independence conjunct is
stated.) -/
theorem c5_routing_exclusive (f : SerialICE_filter)
    (port size addr msize eax ecx key d0 : Nat) :
    (f.io_read_pre port size = routing_target_only →
       ∀ cq cq' ct, serialice_io_read f cq ct port size = serialice_io_read f cq' ct port size)
  ∧ (f.io_read_pre port size = routing_qemu_only →
       ∀ cq ct ct', serialice_io_read f cq ct port size = serialice_io_read f cq ct' port size)
  ∧ (f.load_pre addr msize = routing_qemu_only →
       ∀ ct ct', serialice_handle_load f ct addr msize d0
         = serialice_handle_load f ct' addr msize d0)
  ∧ (f.rdmsr_pre addr = routing_target_only →
       ∀ cq cq' ct, serialice_rdmsr f cq ct addr key = serialice_rdmsr f cq' ct addr key)
  ∧ (f.rdmsr_pre addr = routing_qemu_only →
       ∀ cq ct ct', serialice_rdmsr f cq ct addr key = serialice_rdmsr f cq ct' addr key)
  ∧ (f.cpuid_pre eax ecx = routing_target_only →
       ∀ cq cq' ct, serialice_cpuid f cq ct eax ecx = serialice_cpuid f cq' ct eax ecx)
  ∧ (f.cpuid_pre eax ecx = routing_qemu_only →
       ∀ cq ct ct', serialice_cpuid f cq ct eax ecx = serialice_cpuid f cq ct' eax ecx) := by
  refine ⟨?_, ?_, ?_, ?_, ?_, ?_, ?_⟩
  · intro h cq cq' ct
    simp [serialice_io_read, h, routing_target_only]
  · intro h cq ct ct'
    simp [serialice_io_read, h, routing_qemu_only]
  · intro h ct ct'
    simp [serialice_handle_load, h, routing_qemu_only]
  · intro h cq cq' ct
    simp [serialice_rdmsr, h, routing_target_only]
  · intro h cq ct ct'
    simp [serialice_rdmsr, h, routing_qemu_only]
  · intro h cq cq' ct
    simp [serialice_cpuid, h, routing_target_only]
  · intro h cq ct ct'
    simp [serialice_cpuid, h, routing_qemu_only]

/-- Witness for C5: concrete backends under target-only and
emulation-only policies. -/
theorem c5_routing_exclusive_witness :
    serialice_io_read (const_filter routing_target_only) (fun _ _ => 1) (fun _ _ => 3) 0 1
      = serialice_io_read (const_filter routing_target_only) (fun _ _ => 2) (fun _ _ => 3) 0 1
    ∧ serialice_rdmsr (const_filter routing_qemu_only) (fun _ => 5) (fun _ _ => (1, 1)) 0 0
      = serialice_rdmsr (const_filter routing_qemu_only) (fun _ => 5) (fun _ _ => (2, 2)) 0 0 :=
  ⟨(c5_routing_exclusive (const_filter routing_target_only) 0 1 0 1 0 0 0 0).1 rfl
      (fun _ _ => 1) (fun _ _ => 2) (fun _ _ => 3),
   (c5_routing_exclusive (const_filter routing_qemu_only) 0 1 0 1 0 0 0 0).2.2.2.2.1 rfl
      (fun _ => 5) (fun _ _ => (1, 1)) (fun _ _ => (2, 2))⟩

/-- Claim C9 (refuted for load): the claim states that for every
read-kind access the post hook is applied to the result regardless of
which sources the routing mask selected.  With an emulation-only mask,
serialice_handle_load returns the incoming data 7 untouched although
the filter's load post hook maps everything to 42, so the hook did not
run. -/
theorem c9_load_post_skipped_counterexample :
    serialice_handle_load c9_filter (fun _ _ => 0) 0 1 7 = (7, false)
    ∧ c9_filter.load_post 7 = 42
    ∧ (7 : Nat) ≠ 42 := by
  decide

/-- Claim C9 (amended): io_read, rdmsr and cpuid invoke the filter's
post hook on the result before returning it; load invokes the load post
hook only when the routing mask does not select emulation (the
locally-handled case), and the hook is irrelevant whenever emulation is
selected. -/
theorem c9_post_hook_amended (f : SerialICE_filter)
    (port size addr msize eax ecx key d0 : Nat) :
    (∀ cq ct, ∃ m,
        serialice_io_read { f with io_read_post := fun x => x } cq ct port size = u64 m
        ∧ serialice_io_read f cq ct port size = u64 (f.io_read_post m))
  ∧ (∀ cq ct, serialice_cpuid f cq ct eax ecx
        = f.cpuid_post (serialice_cpuid { f with cpuid_post := fun r => r } cq ct eax ecx))
  ∧ (∀ cq ct, ∃ hl : Nat × Nat,
        serialice_rdmsr { f with rdmsr_post := fun hi lo => (hi, lo) } cq ct addr key
          = u32 hl.1 <<< 32 ||| u32 hl.2
        ∧ serialice_rdmsr f cq ct addr key
          = u32 (f.rdmsr_post hl.1 hl.2).1 <<< 32 ||| u32 (f.rdmsr_post hl.1 hl.2).2)
  ∧ ((f.load_pre addr msize).qemu = false →
      ∀ ct, ∃ m,
        serialice_handle_load { f with load_post := fun x => x } ct addr msize d0
          = (u64 m, true)
        ∧ serialice_handle_load f ct addr msize d0 = (u64 (f.load_post m), true))
  ∧ ((f.load_pre addr msize).qemu = true →
      ∀ ct g, serialice_handle_load f ct addr msize d0
        = serialice_handle_load { f with load_post := g } ct addr msize d0) := by
  refine ⟨?_, ?_, ?_, ?_, ?_⟩
  · intro cq ct
    exact ⟨mask_data
        (if (f.io_read_pre port size).serialice then u64 (ct port size)
         else if (f.io_read_pre port size).qemu then u64 (cq port size) else 0) size,
      rfl, rfl⟩
  · intro cq ct
    rfl
  · intro cq ct
    exact ⟨(if (f.rdmsr_pre addr).qemu then
          (u64 (cq addr) >>> 32, u64 (cq addr) &&& 0xffffffff)
        else if (f.rdmsr_pre addr).serialice then
          (u32 (ct addr key).1, u32 (ct addr key).2)
        else (0, 0)),
      rfl, rfl⟩
  · intro h ct
    refine ⟨(if (f.load_pre addr msize).serialice = true
        then u64 (ct addr msize) else u64 d0), ?_, ?_⟩
    · simp [serialice_handle_load, h]
    · simp [serialice_handle_load, h]
  · intro h ct g
    simp [serialice_handle_load, h]

/-- Witness for C9 (amended): the cpuid post-hook factorisation and the
load post-hook irrelevance under emulation routing, at concrete
backends. -/
theorem c9_post_hook_amended_witness :
    serialice_cpuid (const_filter routing_both)
        (fun _ _ => ⟨1, 2, 3, 4⟩) (fun _ _ => ⟨5, 6, 7, 8⟩) 0 0
      = (const_filter routing_both).cpuid_post
          (serialice_cpuid { const_filter routing_both with cpuid_post := fun r => r }
            (fun _ _ => ⟨1, 2, 3, 4⟩) (fun _ _ => ⟨5, 6, 7, 8⟩) 0 0)
    ∧ serialice_handle_load (const_filter routing_both) (fun _ _ => 9) 1 1 2
      = serialice_handle_load
          { const_filter routing_both with load_post := fun _ => 0 } (fun _ _ => 9) 1 1 2 :=
  ⟨(c9_post_hook_amended (const_filter routing_both) 0 1 1 1 0 0 0 2).2.1
      (fun _ _ => ⟨1, 2, 3, 4⟩) (fun _ _ => ⟨5, 6, 7, 8⟩),
   (c9_post_hook_amended (const_filter routing_both) 0 1 1 1 0 0 0 2).2.2.2.2 rfl
      (fun _ _ => 9) (fun _ => 0)⟩

/-- Claim C10: for every write-kind access (io_write, store, wrmsr),
the filter's pre hook receives the data by reference and may rewrite
it, and the value actually written to each selected backend is the
pre-hook-rewritten value (for io_write additionally re-masked to the
requested width), not the caller's original value. -/
theorem c10_write_pre_rewrite (f : SerialICE_filter)
    (port size addr key d : Nat) (mux : RoutingDecision) (d2 hi2 lo2 : Nat) :
    (f.io_write_pre (mask_data (u64 d) size) port size = (mux, d2) →
       serialice_io_write f port size d
         = (if mux.qemu then [IoWriteEvent.toQemu port size (mask_data (u64 d2) size)] else [])
           ++ (if mux.serialice then
                [IoWriteEvent.toSerialice port size (mask_data (u64 d2) size)] else []))
  ∧ (f.store_pre addr size (u64 d) = (mux, d2) →
       serialice_handle_store f addr size d
         = ((if mux.serialice then [StoreEvent.toSerialice addr size (u64 d2)] else []),
            !mux.qemu))
  ∧ (f.wrmsr_pre addr (u64 d >>> 32) (u64 d &&& 0xffffffff) = (mux, hi2, lo2) →
       serialice_wrmsr f d addr key
         = (if mux.serialice then
              [WrmsrEvent.toSerialice addr key (u32 hi2) (u32 lo2)] else [])
           ++ (if mux.qemu then
              [WrmsrEvent.toQemu addr (u32 lo2 ||| u32 hi2 <<< 32)] else [])) := by
  refine ⟨?_, ?_, ?_⟩
  · intro h
    rw [serialice_io_write]
    simp only [h]
  · intro h
    rw [serialice_handle_store]
    simp only [h]
  · intro h
    rw [serialice_wrmsr]
    simp only [h]

/-- Witness for C10: a policy whose pre hooks add one to the data; the
backends receive 6, not the caller's 5. -/
theorem c10_write_pre_rewrite_witness :
    serialice_io_write c10_filter 0 1 5
      = (if routing_both.qemu then [IoWriteEvent.toQemu 0 1 (mask_data (u64 6) 1)] else [])
        ++ (if routing_both.serialice then
              [IoWriteEvent.toSerialice 0 1 (mask_data (u64 6) 1)] else [])
    ∧ serialice_handle_store c10_filter 2 1 5
      = ((if routing_both.serialice then [StoreEvent.toSerialice 2 1 (u64 6)] else []),
         !routing_both.qemu) :=
  ⟨(c10_write_pre_rewrite c10_filter 0 1 2 0 5 routing_both 6 0 0).1 (by decide),
   (c10_write_pre_rewrite c10_filter 0 1 2 0 5 routing_both 6 0 0).2.1 (by decide)⟩

end SerialICE
